import Mathlib

/-!
Verification of the CH-form Clifford gate engine (`cliffords.py`).

A stabilizer state in CH form is `phase · U_C · U_H · |s⟩`, stored as three
n×n bit matrices `A`, `B`, `C` (numpy uint8 arrays with entries 0/1), a
vector `g` of exponents mod 4, bit vectors `v` and `s`, and a complex scalar
`phase`.  We embed the state with `Fin n → ℕ` rows/entries; all the numpy
operations the gates perform (`^` bitwise xor, `*`, `@` dot product, `%` by
4) are translated operation for operation.  uint8 additions and products
wrap at 256, but every wrapped quantity is reduced mod 4 immediately and
4 ∣ 256, so the wrap is invisible mod 4; only the uint8 *subtraction* in
`SGate.rightMultiplyC` needs the explicit 256 wrap to make sense over ℕ.

The scalar `phase` only ever gets multiplied by Gaussian-integer factors
divided by powers of √2 (the Python code uses complex floats and
`np.sqrt(2)`; we model the arithmetic exactly), so we represent it as a
Gaussian integer together with the power of √2 in the denominator.
-/

/-- Exact model of the complex scalar `phase`: the value `num / √2 ^ sq2`.
Multiplication multiplies numerators and adds the √2 exponents. -/
structure PhaseVal where
  num : GaussianInt
  sq2 : ℕ
  deriving DecidableEq

/-- Multiplication of phase scalars. -/
def PhaseVal.mul (p q : PhaseVal) : PhaseVal := ⟨p.num * q.num, p.sq2 + q.sq2⟩

/-- The imaginary unit of the Gaussian integers (`complex(0,1)` in the code). -/
def iG : GaussianInt := ⟨0, 1⟩

/-- The CH-form stabilizer state of `stabstate.StabState`: bit matrices
`A`, `B`, `C` (rows indexed first, so `A t` is the numpy row `A[t]` and
`fun i => A i t` is the column `A[:,t]`), the mod-4 exponent vector `g`,
the Hadamard selector `v`, the basis vector `s` and the global `phase`. -/
@[ext]
structure StabState (n : ℕ) where
  A : Fin n → Fin n → ℕ
  B : Fin n → Fin n → ℕ
  C : Fin n → Fin n → ℕ
  g : Fin n → ℕ
  v : Fin n → ℕ
  s : Fin n → ℕ
  phase : PhaseVal
  deriving DecidableEq

/-- The data-model ranges of §3: `A`, `B`, `C`, `v`, `s` hold GF(2) bits and
`g` holds integers mod 4.  The Python arrays are uint8 kept in these ranges
by every update; over ℕ we carry the ranges as an explicit predicate. -/
def StabState.Wf {n : ℕ} (st : StabState n) : Prop :=
  (∀ i j, st.A i j ≤ 1) ∧ (∀ i j, st.B i j ≤ 1) ∧ (∀ i j, st.C i j ≤ 1) ∧
    (∀ i, st.g i < 4) ∧ (∀ i, st.v i ≤ 1) ∧ (∀ i, st.s i ≤ 1)

instance {n : ℕ} (st : StabState n) : Decidable st.Wf := by
  unfold StabState.Wf; infer_instance

/-- The numpy `@` product of two rows: `x @ y = Σ_j x j * y j` (an integer
dot product, not reduced mod 2). -/
def dotRow {n : ℕ} (x y : Fin n → ℕ) : ℕ := ∑ j, x j * y j

namespace SGate

/-- Source `SGate.rightMultiplyC`: `C[:,t] ^= A[:,t]` and
`g = np.uint8(g - A[:,t]) % 4` (uint8 subtraction wraps at 256). -/
def rightMultiplyC {n : ℕ} (target : Fin n) (st : StabState n) : StabState n :=
  { st with
    C := fun i j => if j = target then st.C i target ^^^ st.A i target else st.C i j
    g := fun i => ((st.g i + 256 - st.A i target) % 256) % 4 }

/-- Source `SGate.leftMultiplyC`: `C[t] ^= B[t]` and `g[t] = (g[t] + 3) % 4`. -/
def leftMultiplyC {n : ℕ} (target : Fin n) (st : StabState n) : StabState n :=
  { st with
    C := fun i j => if i = target then st.C target j ^^^ st.B target j else st.C i j
    g := fun i => if i = target then (st.g target + 3) % 4 else st.g i }

/-- Source `CTypeCliffordGate.apply` left-multiplies the gate onto `U_C`. -/
def apply {n : ℕ} (target : Fin n) (st : StabState n) : StabState n :=
  leftMultiplyC target st

end SGate

namespace CXGate

/-- Source `CXGate.rightMultiplyC`: three column updates, in source order
`B[:,c] ^= B[:,t]; A[:,t] ^= A[:,c]; C[:,c] ^= C[:,t]`; each statement
reads only arrays no earlier statement wrote. -/
def rightMultiplyC {n : ℕ} (target control : Fin n) (st : StabState n) :
    StabState n :=
  { st with
    B := fun i j => if j = control then st.B i control ^^^ st.B i target else st.B i j
    A := fun i j => if j = target then st.A i target ^^^ st.A i control else st.A i j
    C := fun i j => if j = control then st.C i control ^^^ st.C i target else st.C i j }

/-- Source `CXGate.leftMultiplyC`:
`g[c] = (g[c] + g[t] + 2 * (C[c] @ A[t])) % 4` from the pre-update rows,
then `B[t] ^= B[c]; A[c] ^= A[t]; C[c] ^= C[t]`; again every right-hand
side reads only pre-update data, including when `target = control`. -/
def leftMultiplyC {n : ℕ} (target control : Fin n) (st : StabState n) :
    StabState n :=
  { st with
    g := fun i => if i = control then
        (st.g control + st.g target + 2 * dotRow (st.C control) (st.A target)) % 4
      else st.g i
    B := fun i j => if i = target then st.B target j ^^^ st.B control j else st.B i j
    A := fun i j => if i = control then st.A control j ^^^ st.A target j else st.A i j
    C := fun i j => if i = control then st.C control j ^^^ st.C target j else st.C i j }

/-- Source `CTypeCliffordGate.apply` for CX. -/
def apply {n : ℕ} (target control : Fin n) (st : StabState n) : StabState n :=
  leftMultiplyC target control st

end CXGate

namespace CZGate

/-- Source `CZGate.rightMultiplyC`: `C[:,c] ^= A[:,t]`, then `C[:,t] ^= A[:,c]`
(reading the column the first statement may have written when
`target = control`), then `g = (g + 2 * A[:,c] * A[:,t]) % 4`. -/
def rightMultiplyC {n : ℕ} (target control : Fin n) (st : StabState n) :
    StabState n :=
  let C1 : Fin n → Fin n → ℕ := fun i j =>
    if j = control then st.C i control ^^^ st.A i target else st.C i j
  { st with
    C := fun i j => if j = target then C1 i target ^^^ st.A i control else C1 i j
    g := fun i => (st.g i + 2 * st.A i control * st.A i target) % 4 }

/-- Source `CZGate.leftMultiplyC`: `C[c] ^= B[t]`, then `C[t] ^= B[c]` on the
already-updated matrix. -/
def leftMultiplyC {n : ℕ} (target control : Fin n) (st : StabState n) :
    StabState n :=
  let C1 : Fin n → Fin n → ℕ := fun i j =>
    if i = control then st.C control j ^^^ st.B target j else st.C i j
  { st with
    C := fun i j => if i = target then C1 target j ^^^ st.B control j else C1 i j }

/-- Source `CTypeCliffordGate.apply` for CZ. -/
def apply {n : ℕ} (target control : Fin n) (st : StabState n) : StabState n :=
  leftMultiplyC target control st

end CZGate

/-- The C-type gates that `util.desuperpositionise` can return in its
`VCList`; each knows how to right-multiply itself onto `U_C`. -/
inductive CTypeGate (n : ℕ) where
  | S (target : Fin n)
  | CX (target control : Fin n)
  | CZ (target control : Fin n)
  deriving DecidableEq

/-- Dispatch of `rightMultiplyC` over the C-type gate classes. -/
def CTypeGate.rightMultiplyC {n : ℕ} : CTypeGate n → StabState n → StabState n
  | .S t => SGate.rightMultiplyC t
  | .CX t c => CXGate.rightMultiplyC t c
  | .CZ t c => CZGate.rightMultiplyC t c

/-- The tuple `(phase, VCList, v, s)` returned by
`util.desuperpositionise`. -/
structure DesupResult (n : ℕ) where
  phase : PhaseVal
  vcList : List (CTypeGate n)
  v : Fin n → ℕ
  s : Fin n → ℕ

/-- The type of the `util.desuperpositionise` collaborator: it receives
the two candidate basis vectors `t`, `u`, a phase exponent mod 4 and the
Hadamard selector `v`.  `util.py` is not part of the sources under
verification, so the Hadamard gate is parameterised over it. -/
def Desup (n : ℕ) :=
  (Fin n → ℕ) → (Fin n → ℕ) → ℕ → (Fin n → ℕ) → DesupResult n

/-- The local `t` of `HGate.apply` line 144:
`t = s ^ (B[target] * v)` (on bits, `*` is AND and `^` is XOR). -/
def tVec {n : ℕ} (target : Fin n) (st : StabState n) : Fin n → ℕ :=
  fun i => st.s i ^^^ st.B target i * st.v i

/-- The local `u` of `HGate.apply` line 145:
`u = s ^ (A[target] * (1 - v)) ^ (C[target] * v)`. -/
def uVec {n : ℕ} (target : Fin n) (st : StabState n) : Fin n → ℕ :=
  fun i => st.s i ^^^ st.A target i * (1 - st.v i) ^^^ st.C target i * st.v i

/-- The local `alpha` of `HGate.apply` line 146: the integer sum
`(B[target] * (1 - v) * s).sum()`, not reduced mod 2. -/
def alphaCode {n : ℕ} (target : Fin n) (st : StabState n) : ℕ :=
  ∑ i, st.B target i * (1 - st.v i) * st.s i

/-- The local `beta` of `HGate.apply` line 147: the integer sum
`(C[target]*(1-v)*s + A[target]*v*(C[target] + s)).sum()`; note the code
adds `C[target] + s` as integers where the spec writes an XOR. -/
def betaCode {n : ℕ} (target : Fin n) (st : StabState n) : ℕ :=
  ∑ i, (st.C target i * (1 - st.v i) * st.s i +
    st.A target i * st.v i * (st.C target i + st.s i))

namespace HGate

/-- Source `HGate.apply`, translated line for line (the code's local bindings
`t`, `u`, `alpha`, `beta` are the top-level `tVec`, `uVec`, `alphaCode`,
`betaCode`).  If `t == u` elementwise the phase is multiplied by
`((-1)^alpha + i^g[t] * (-1)^beta) / √2` and `s` becomes `t`; otherwise
the state is desuperpositionised and every returned C-type gate is
right-multiplied on, in list order. -/
def apply {n : ℕ} (desup : Desup n) (target : Fin n) (st : StabState n) :
    StabState n :=
  if tVec target st = uVec target st then
    { st with
      s := tVec target st
      phase := st.phase.mul ⟨(-1) ^ alphaCode target st +
        iG ^ st.g target * (-1) ^ betaCode target st, 1⟩ }
  else
    let r := desup (tVec target st) (uVec target st)
      ((st.g target + 2 * (alphaCode target st + betaCode target st)) % 4) st.v
    let st1 : StabState n :=
      { st with
        phase := (st.phase.mul r.phase).mul ⟨(-1) ^ alphaCode target st, 1⟩
        v := r.v
        s := r.s }
    r.vcList.foldl (fun acc gc => gc.rightMultiplyC acc) st1

end HGate

/-- The parity `alpha = Σ B[target]·(1−v)·s mod 2` of §4.3 step 2. -/
def alphaSpec {n : ℕ} (target : Fin n) (st : StabState n) : ℕ :=
  (∑ i, st.B target i * (1 - st.v i) * st.s i) % 2

/-- The parity `beta = Σ (C[target]·(1−v)·s + A[target]·v·(C[target] XOR s))
mod 2` of §4.3 step 2 (with the XOR the spec prescribes, where the code
adds). -/
def betaSpec {n : ℕ} (target : Fin n) (st : StabState n) : ℕ :=
  (∑ i, (st.C target i * (1 - st.v i) * st.s i +
    st.A target i * st.v i * (st.C target i ^^^ st.s i))) % 2

/-- Powers of `-1` only depend on the parity of the exponent. -/
lemma neg_one_pow_mod_two (a : ℕ) :
    ((-1 : GaussianInt)) ^ a = (-1) ^ (a % 2) := by
  rcases Nat.even_or_odd a with h | h
  · rw [h.neg_one_pow, Nat.even_iff.mp h, pow_zero]
  · rw [h.neg_one_pow, Nat.odd_iff.mp h, pow_one]

/-- Two sums agree mod `m` whenever their terms do. -/
lemma sum_mod_congr {n m : ℕ} (f h : Fin n → ℕ)
    (hm : ∀ i, f i % m = h i % m) :
    (∑ i, f i) % m = (∑ i, h i) % m := by
  rw [Finset.sum_nat_mod Finset.univ m f, Finset.sum_nat_mod Finset.univ m h]
  exact congrArg (· % m) (Finset.sum_congr rfl fun i _ => hm i)

/-- On GF(2) bits, the code's summand `a·w·(c + x)` (integer addition)
and the spec's `a·w·(c XOR x)` have the same parity. -/
lemma beta_term_mod_two (a c w x : ℕ) (ha : a ≤ 1) (hc : c ≤ 1)
    (hw : w ≤ 1) (hx : x ≤ 1) :
    (c * (1 - w) * x + a * w * (c + x)) % 2 =
      (c * (1 - w) * x + a * w * (c ^^^ x)) % 2 := by
  interval_cases a <;> interval_cases c <;> interval_cases w <;>
    interval_cases x <;> decide

/-- The integer sum the code calls `beta` has the parity `betaSpec`. -/
lemma betaCode_mod_two {n : ℕ} (target : Fin n) (st : StabState n)
    (hW : st.Wf) : betaCode target st % 2 = betaSpec target st := by
  unfold betaCode betaSpec
  exact sum_mod_congr _ _ fun i =>
    beta_term_mod_two _ _ _ _ (hW.1 target i) (hW.2.2.1 target i)
      (hW.2.2.2.2.1 i) (hW.2.2.2.2.2 i)

/-- The code's `alpha` has the parity `alphaSpec` (its mod-2 reduction,
definitionally). -/
lemma alphaCode_mod_two {n : ℕ} (target : Fin n) (st : StabState n) :
    alphaCode target st % 2 = alphaSpec target st := rfl

/-- The phase numerator the code computes in the non-splitting branch
equals the one written with the mod-2-reduced `alpha` and `beta`. -/
lemma hFactor_eq {n : ℕ} (target : Fin n) (st : StabState n) (hW : st.Wf) :
    ((-1 : GaussianInt) ^ alphaCode target st +
        iG ^ st.g target * (-1) ^ betaCode target st) =
      (-1) ^ alphaSpec target st +
        iG ^ st.g target * (-1) ^ betaSpec target st := by
  rw [neg_one_pow_mod_two (alphaCode target st),
    neg_one_pow_mod_two (betaCode target st),
    betaCode_mod_two target st hW, alphaCode_mod_two target st]

/-- C1: in the non-splitting case (`t = u` elementwise), `HGate.apply`
leaves `A`, `B`, `C`, `g`, `v` unchanged, sets `s` to `t`, and multiplies
the phase by `((−1)^alpha + i^g[target]·(−1)^beta)/√2` with `alpha`,
`beta` the mod-2 parity sums of §4.3 step 2. -/
theorem hgate_nosplit_updates {n : ℕ} (desup : Desup n) (target : Fin n)
    (st : StabState n) (hW : st.Wf) (h : tVec target st = uVec target st) :
    (HGate.apply desup target st).A = st.A ∧
    (HGate.apply desup target st).B = st.B ∧
    (HGate.apply desup target st).C = st.C ∧
    (HGate.apply desup target st).g = st.g ∧
    (HGate.apply desup target st).v = st.v ∧
    (HGate.apply desup target st).s = tVec target st ∧
    (HGate.apply desup target st).phase = st.phase.mul
      ⟨(-1) ^ alphaSpec target st +
        iG ^ st.g target * (-1) ^ betaSpec target st, 1⟩ := by
  have key : HGate.apply desup target st =
      { st with
        s := tVec target st
        phase := st.phase.mul
          ⟨(-1) ^ alphaCode target st +
            iG ^ st.g target * (-1) ^ betaCode target st, 1⟩ } := by
    unfold HGate.apply
    rw [if_pos h]
  rw [key]
  exact ⟨rfl, rfl, rfl, rfl, rfl, rfl, by rw [hFactor_eq target st hW]⟩

/-- A concrete one-qubit state with `B = 1`, everything else zero. -/
def exSt1 : StabState 1 :=
  { A := fun _ _ => 0, B := fun _ _ => 1, C := fun _ _ => 0,
    g := fun _ => 0, v := fun _ => 0, s := fun _ => 0, phase := ⟨1, 0⟩ }

/-- A concrete desuperpositionise stub used only to instantiate theorems
that never reach the splitting branch, or reach it with this fixed
result. -/
def exDesup1 : Desup 1 := fun _ _ _ _ => ⟨⟨1, 0⟩, [], fun _ => 0, fun _ => 0⟩

/-- Adding `2·x` and `2·(x mod 2)` agree mod 4. -/
lemma exponent_mod_four (gt a b : ℕ) :
    (gt + 2 * (a + b)) % 4 = (gt + 2 * (a % 2 + b % 2)) % 4 := by omega

/-- XOR of GF(2) bits is a GF(2) bit. -/
lemma xor_bit_le (a b : ℕ) (ha : a ≤ 1) (hb : b ≤ 1) : a ^^^ b ≤ 1 := by
  interval_cases a <;> interval_cases b <;> decide

/-- An `if` whose two branches are bits is a bit. -/
lemma ite_bit_le (P : Prop) [Decidable P] (a b : ℕ) (ha : a ≤ 1)
    (hb : b ≤ 1) : (if P then a else b) ≤ 1 := by
  split <;> assumption

/-- An `if` whose two branches are mod-4 normalized stays normalized. -/
lemma ite_lt_four (P : Prop) [Decidable P] (a b : ℕ) (ha : a < 4)
    (hb : b < 4) : (if P then a else b) < 4 := by
  split <;> assumption

/-- C2: in the splitting case (`t ≠ u`), `HGate.apply` hands
`(t, u, (g[target] + 2(alpha+beta)) mod 4, v)` to desuperpositionise —
with `alpha`, `beta` the mod-2 parities of §4.3 step 2 — multiplies the
phase by the returned phase and by `(−1)^alpha/√2`, replaces `v` and `s`
by the returned vectors, and right-multiplies each returned C-type gate
onto the state in list order. -/
theorem hgate_split_delegates {n : ℕ} (desup : Desup n) (target : Fin n)
    (st : StabState n) (hW : st.Wf)
    (h : tVec target st ≠ uVec target st) :
    HGate.apply desup target st =
      (let r := desup (tVec target st) (uVec target st)
        ((st.g target + 2 * (alphaSpec target st + betaSpec target st)) % 4)
        st.v
      r.vcList.foldl (fun acc gc => gc.rightMultiplyC acc)
        { st with
          phase := (st.phase.mul r.phase).mul
            ⟨(-1) ^ alphaSpec target st, 1⟩
          v := r.v
          s := r.s }) := by
  unfold HGate.apply
  rw [if_neg h]
  have e1 : (st.g target +
      2 * (alphaCode target st + betaCode target st)) % 4 =
      (st.g target + 2 * (alphaSpec target st + betaSpec target st)) % 4 := by
    rw [← alphaCode_mod_two target st, ← betaCode_mod_two target st hW]
    exact exponent_mod_four _ _ _
  have e2 : ((-1 : GaussianInt)) ^ alphaCode target st =
      (-1) ^ alphaSpec target st := by
    rw [neg_one_pow_mod_two, alphaCode_mod_two]
  rw [e1, e2]

/-- A concrete one-qubit state with `A = B = 1`, `C = 0`, which makes the
Hadamard split (`t = 0 ≠ 1 = u`). -/
def exSt2 : StabState 1 :=
  { A := fun _ _ => 1, B := fun _ _ => 1, C := fun _ _ => 0,
    g := fun _ => 0, v := fun _ => 0, s := fun _ => 0, phase := ⟨1, 0⟩ }

theorem hgate_split_delegates_witness :
    exSt2.Wf ∧ tVec 0 exSt2 ≠ uVec 0 exSt2 ∧
    HGate.apply exDesup1 0 exSt2 =
      (let r := exDesup1 (tVec 0 exSt2) (uVec 0 exSt2)
        ((exSt2.g 0 + 2 * (alphaSpec 0 exSt2 + betaSpec 0 exSt2)) % 4)
        exSt2.v
      r.vcList.foldl (fun acc gc => gc.rightMultiplyC acc)
        { exSt2 with
          phase := (exSt2.phase.mul r.phase).mul
            ⟨(-1) ^ alphaSpec 0 exSt2, 1⟩
          v := r.v
          s := r.s }) :=
  ⟨by decide, by decide,
    hgate_split_delegates exDesup1 0 exSt2 (by decide) (by decide)⟩

theorem hgate_nosplit_updates_witness :
    exSt1.Wf ∧ tVec 0 exSt1 = uVec 0 exSt1 ∧
    ((HGate.apply exDesup1 0 exSt1).A = exSt1.A ∧
    (HGate.apply exDesup1 0 exSt1).B = exSt1.B ∧
    (HGate.apply exDesup1 0 exSt1).C = exSt1.C ∧
    (HGate.apply exDesup1 0 exSt1).g = exSt1.g ∧
    (HGate.apply exDesup1 0 exSt1).v = exSt1.v ∧
    (HGate.apply exDesup1 0 exSt1).s = tVec 0 exSt1 ∧
    (HGate.apply exDesup1 0 exSt1).phase = exSt1.phase.mul
      ⟨(-1) ^ alphaSpec 0 exSt1 +
        iG ^ exSt1.g 0 * (-1) ^ betaSpec 0 exSt1, 1⟩) :=
  ⟨by decide, by decide,
    hgate_nosplit_updates exDesup1 0 exSt1 (by decide) (by decide)⟩

/-- Doubling a dot product keeps only its parity mod 4. -/
lemma two_mul_dot_mod_four (a b d : ℕ) :
    (a + b + 2 * d) % 4 = (a + b + 2 * (d % 2)) % 4 := by omega

/-- C3: the CX update rules.  Right multiplication XORs column `target`
of `B` into column `control`, column `control` of `A` into column
`target`, and column `target` of `C` into column `control`.  Left
multiplication sets `g[control]` to
`(g[control] + g[target] + 2·⟨C[control],A[target]⟩_GF(2)) mod 4` from the
pre-update rows, then XORs row `B[control]` into `B[target]`, row
`A[target]` into `A[control]` and row `C[target]` into `C[control]`.
All entries stay bits and `g` stays in `{0,1,2,3}`. -/
theorem cx_multiplyC_rules {n : ℕ} (st : StabState n) (t c : Fin n)
    (hW : st.Wf) (_htc : t ≠ c) :
    ((∀ i, (CXGate.rightMultiplyC t c st).B i c = st.B i c ^^^ st.B i t) ∧
     (∀ i j, j ≠ c → (CXGate.rightMultiplyC t c st).B i j = st.B i j) ∧
     (∀ i, (CXGate.rightMultiplyC t c st).A i t = st.A i t ^^^ st.A i c) ∧
     (∀ i j, j ≠ t → (CXGate.rightMultiplyC t c st).A i j = st.A i j) ∧
     (∀ i, (CXGate.rightMultiplyC t c st).C i c = st.C i c ^^^ st.C i t) ∧
     (∀ i j, j ≠ c → (CXGate.rightMultiplyC t c st).C i j = st.C i j) ∧
     (CXGate.rightMultiplyC t c st).g = st.g ∧
     (CXGate.rightMultiplyC t c st).v = st.v ∧
     (CXGate.rightMultiplyC t c st).s = st.s ∧
     (CXGate.rightMultiplyC t c st).phase = st.phase ∧
     (CXGate.rightMultiplyC t c st).Wf) ∧
    ((CXGate.leftMultiplyC t c st).g c =
        (st.g c + st.g t + 2 * (dotRow (st.C c) (st.A t) % 2)) % 4 ∧
     (∀ i, i ≠ c → (CXGate.leftMultiplyC t c st).g i = st.g i) ∧
     (∀ j, (CXGate.leftMultiplyC t c st).B t j = st.B t j ^^^ st.B c j) ∧
     (∀ i j, i ≠ t → (CXGate.leftMultiplyC t c st).B i j = st.B i j) ∧
     (∀ j, (CXGate.leftMultiplyC t c st).A c j = st.A c j ^^^ st.A t j) ∧
     (∀ i j, i ≠ c → (CXGate.leftMultiplyC t c st).A i j = st.A i j) ∧
     (∀ j, (CXGate.leftMultiplyC t c st).C c j = st.C c j ^^^ st.C t j) ∧
     (∀ i j, i ≠ c → (CXGate.leftMultiplyC t c st).C i j = st.C i j) ∧
     (CXGate.leftMultiplyC t c st).v = st.v ∧
     (CXGate.leftMultiplyC t c st).s = st.s ∧
     (CXGate.leftMultiplyC t c st).phase = st.phase ∧
     (CXGate.leftMultiplyC t c st).Wf) := by
  have hA := hW.1
  have hB := hW.2.1
  have hC := hW.2.2.1
  have hg := hW.2.2.2.1
  have hv := hW.2.2.2.2.1
  have hs := hW.2.2.2.2.2
  constructor
  · refine ⟨fun i => by simp [CXGate.rightMultiplyC],
      fun i j hj => by simp [CXGate.rightMultiplyC, hj],
      fun i => by simp [CXGate.rightMultiplyC],
      fun i j hj => by simp [CXGate.rightMultiplyC, hj],
      fun i => by simp [CXGate.rightMultiplyC],
      fun i j hj => by simp [CXGate.rightMultiplyC, hj],
      rfl, rfl, rfl, rfl,
      ⟨fun i j => ite_bit_le _ _ _ (xor_bit_le _ _ (hA i t) (hA i c)) (hA i j),
       fun i j => ite_bit_le _ _ _ (xor_bit_le _ _ (hB i c) (hB i t)) (hB i j),
       fun i j => ite_bit_le _ _ _ (xor_bit_le _ _ (hC i c) (hC i t)) (hC i j),
       hg, hv, hs⟩⟩
  · refine ⟨by simp [CXGate.leftMultiplyC]; omega,
      fun i hi => by simp [CXGate.leftMultiplyC, hi],
      fun j => by simp [CXGate.leftMultiplyC],
      fun i j hi => by simp [CXGate.leftMultiplyC, hi],
      fun j => by simp [CXGate.leftMultiplyC],
      fun i j hi => by simp [CXGate.leftMultiplyC, hi],
      fun j => by simp [CXGate.leftMultiplyC],
      fun i j hi => by simp [CXGate.leftMultiplyC, hi],
      rfl, rfl, rfl,
      ⟨fun i j => ite_bit_le _ _ _ (xor_bit_le _ _ (hA c j) (hA t j)) (hA i j),
       fun i j => ite_bit_le _ _ _ (xor_bit_le _ _ (hB t j) (hB c j)) (hB i j),
       fun i j => ite_bit_le _ _ _ (xor_bit_le _ _ (hC c j) (hC t j)) (hC i j),
       fun i => ite_lt_four _ _ _ (Nat.mod_lt _ (by norm_num)) (hg i),
       hv, hs⟩⟩

/-- A concrete two-qubit state: `A`, `B` the identity bit matrix, `C` the
all-ones matrix, `g = (1,0)`, `v = s = 0`. -/
def exStI2 : StabState 2 :=
  { A := fun i j => if i = j then 1 else 0,
    B := fun i j => if i = j then 1 else 0,
    C := fun _ _ => 1,
    g := fun i => if i = 0 then 1 else 0,
    v := fun _ => 0, s := fun _ => 0, phase := ⟨1, 0⟩ }

theorem cx_multiplyC_rules_witness :
    exStI2.Wf ∧ (0 : Fin 2) ≠ 1 ∧
    (CXGate.rightMultiplyC 0 1 exStI2).Wf ∧
    (CXGate.leftMultiplyC 0 1 exStI2).g 1 =
      (exStI2.g 1 + exStI2.g 0 +
        2 * (dotRow (exStI2.C 1) (exStI2.A 0) % 2)) % 4 :=
  ⟨by decide, by decide,
    (cx_multiplyC_rules exStI2 0 1 (by decide) (by decide)).1.2.2.2.2.2.2.2.2.2.2,
    (cx_multiplyC_rules exStI2 0 1 (by decide) (by decide)).2.1⟩

/-- C4: the S update rules.  Right multiplication sets column `target` of
`C` to `C[:,target] XOR A[:,target]` and decreases `g` by `A[:,target]`
mod 4 componentwise (stated over ℤ, where the uint8 wraparound reads as
mathematical subtraction mod 4); left multiplication sets row `target` of
`C` to `C[target] XOR B[target]` and adds 3 mod 4 to `g[target]`.  `g`
stays normalized in `{0,1,2,3}`. -/
theorem s_multiplyC_rules {n : ℕ} (st : StabState n) (t : Fin n)
    (hW : st.Wf) :
    ((∀ i, (SGate.rightMultiplyC t st).C i t = st.C i t ^^^ st.A i t) ∧
     (∀ i j, j ≠ t → (SGate.rightMultiplyC t st).C i j = st.C i j) ∧
     (∀ i, ((SGate.rightMultiplyC t st).g i : ℤ) =
       ((st.g i : ℤ) - st.A i t) % 4) ∧
     (∀ i, (SGate.rightMultiplyC t st).g i < 4) ∧
     (SGate.rightMultiplyC t st).A = st.A ∧
     (SGate.rightMultiplyC t st).B = st.B ∧
     (SGate.rightMultiplyC t st).v = st.v ∧
     (SGate.rightMultiplyC t st).s = st.s ∧
     (SGate.rightMultiplyC t st).phase = st.phase) ∧
    ((∀ j, (SGate.leftMultiplyC t st).C t j = st.C t j ^^^ st.B t j) ∧
     (∀ i j, i ≠ t → (SGate.leftMultiplyC t st).C i j = st.C i j) ∧
     (SGate.leftMultiplyC t st).g t = (st.g t + 3) % 4 ∧
     (∀ i, i ≠ t → (SGate.leftMultiplyC t st).g i = st.g i) ∧
     (∀ i, (SGate.leftMultiplyC t st).g i < 4) ∧
     (SGate.leftMultiplyC t st).A = st.A ∧
     (SGate.leftMultiplyC t st).B = st.B ∧
     (SGate.leftMultiplyC t st).v = st.v ∧
     (SGate.leftMultiplyC t st).s = st.s ∧
     (SGate.leftMultiplyC t st).phase = st.phase) := by
  have hA := hW.1
  have hg := hW.2.2.2.1
  constructor
  · refine ⟨fun i => by simp [SGate.rightMultiplyC],
      fun i j hj => by simp [SGate.rightMultiplyC, hj],
      fun i => ?_, fun i => ?_, rfl, rfl, rfl, rfl, rfl⟩
    · have h1 := hA i t
      have h2 := hg i
      show ((((st.g i + 256 - st.A i t) % 256) % 4 : ℕ) : ℤ) =
        ((st.g i : ℤ) - st.A i t) % 4
      omega
    · show ((st.g i + 256 - st.A i t) % 256) % 4 < 4
      omega
  · refine ⟨fun j => by simp [SGate.leftMultiplyC],
      fun i j hi => by simp [SGate.leftMultiplyC, hi],
      by simp [SGate.leftMultiplyC],
      fun i hi => by simp [SGate.leftMultiplyC, hi],
      fun i => ite_lt_four _ _ _ (Nat.mod_lt _ (by norm_num)) (hg i),
      rfl, rfl, rfl, rfl, rfl⟩

theorem s_multiplyC_rules_witness :
    exStI2.Wf ∧
    ((SGate.rightMultiplyC 0 exStI2).g 0 : ℤ) =
      ((exStI2.g 0 : ℤ) - exStI2.A 0 0) % 4 ∧
    (SGate.leftMultiplyC 0 exStI2).g 0 = (exStI2.g 0 + 3) % 4 :=
  ⟨by decide,
    (s_multiplyC_rules exStI2 0 (by decide)).1.2.2.1 0,
    (s_multiplyC_rules exStI2 0 (by decide)).2.2.2.1⟩

/-- On bits, `(x XOR y)·a` has the parity of `x·a + y·a`. -/
lemma xor_mul_mod_two (x y a : ℕ) (hx : x ≤ 1) (hy : y ≤ 1) (ha : a ≤ 1) :
    ((x ^^^ y) * a) % 2 = (x * a + y * a) % 2 := by
  interval_cases x <;> interval_cases y <;> interval_cases a <;> decide

/-- The dot product distributes over a pointwise XOR, mod 2. -/
lemma dot_xor_mod_two {n : ℕ} (x y a : Fin n → ℕ) (hx : ∀ i, x i ≤ 1)
    (hy : ∀ i, y i ≤ 1) (ha : ∀ i, a i ≤ 1) :
    dotRow (fun i => x i ^^^ y i) a % 2 = (dotRow x a + dotRow y a) % 2 := by
  unfold dotRow
  rw [← Finset.sum_add_distrib]
  exact sum_mod_congr _ _ fun i => xor_mul_mod_two _ _ _ (hx i) (hy i) (ha i)

/-- A two-qubit state with `A = B = C` the identity bit matrix and
`g = v = s = 0`.  Its bits are well formed, but it violates the CH-form
phase invariant `g[t] ≡ ⟨C[t],A[t]⟩ (mod 2)` (here `0 ≢ 1`). -/
def exStId2 : StabState 2 :=
  { A := fun i j => if i = j then 1 else 0,
    B := fun i j => if i = j then 1 else 0,
    C := fun i j => if i = j then 1 else 0,
    g := fun _ => 0, v := fun _ => 0, s := fun _ => 0, phase := ⟨1, 0⟩ }

/-- C5 counterexample: applying `CX(0,1)` twice to `exStId2` does not
return the original state — the second pass adds
`2·⟨C[1] XOR C[0], A[0]⟩ = 2` to `g[1]`. -/
theorem cx_twice_changes_exStId2 :
    CXGate.apply 0 1 (CXGate.apply 0 1 exStId2) ≠ exStId2 := fun h =>
  absurd (congrArg (fun x => x.g 1) h) (by decide)

/-- C5 amended: `CZ(t,c)` applied twice (distinct arguments) always
restores the state, unconditionally; `CX(t,c)` applied twice restores it
on well-formed states satisfying the CH-form phase invariant
`g[t] ≡ ⟨C[t],A[t]⟩ (mod 2)` (which every state reachable from a valid CH
form satisfies), while on well-formed states violating it the second pass
changes `g[control]` by 2 mod 4, so the state is not restored. -/
theorem cx_cz_self_inverse {n : ℕ} (st : StabState n) (t c : Fin n)
    (htc : t ≠ c) :
    CZGate.apply t c (CZGate.apply t c st) = st ∧
    (st.Wf → st.g t % 2 = dotRow (st.C t) (st.A t) % 2 →
      CXGate.apply t c (CXGate.apply t c st) = st) ∧
    (st.Wf → st.g t % 2 ≠ dotRow (st.C t) (st.A t) % 2 →
      (CXGate.apply t c (CXGate.apply t c st)).g c = (st.g c + 2) % 4 ∧
      CXGate.apply t c (CXGate.apply t c st) ≠ st) := by
  have hct : c ≠ t := Ne.symm htc
  refine ⟨?_, ?_, ?_⟩
  · unfold CZGate.apply CZGate.leftMultiplyC
    refine StabState.ext rfl rfl ?_ rfl rfl rfl rfl
    funext i j
    by_cases hi1 : i = t
    · subst hi1
      simp [htc, hct, Nat.xor_assoc, Nat.xor_self, Nat.xor_zero]
    · by_cases hi2 : i = c <;>
        simp [hi1, hi2, htc, hct, Nat.xor_assoc, Nat.xor_self, Nat.xor_zero]
  · intro hW hinv
    have hA := hW.1
    have hC := hW.2.2.1
    have hg := hW.2.2.2.1
    unfold CXGate.apply CXGate.leftMultiplyC
    refine StabState.ext ?_ ?_ ?_ ?_ rfl rfl rfl
    · funext i j
      by_cases hi : i = c <;>
        simp [hi, htc, hct, Nat.xor_assoc, Nat.xor_self, Nat.xor_zero]
    · funext i j
      by_cases hi : i = t <;>
        simp [hi, htc, hct, Nat.xor_assoc, Nat.xor_self, Nat.xor_zero]
    · funext i j
      by_cases hi : i = c <;>
        simp [hi, htc, hct, Nat.xor_assoc, Nat.xor_self, Nat.xor_zero]
    · funext i
      by_cases hi : i = c
      · simp [hi, htc, hct]
        rw [show (fun j => st.A t j) = st.A t from rfl]
        have hd : dotRow (fun j => st.C c j ^^^ st.C t j) (st.A t) % 2 =
            (dotRow (st.C c) (st.A t) + dotRow (st.C t) (st.A t)) % 2 :=
          dot_xor_mod_two _ _ _ (fun j => hC c j) (fun j => hC t j)
            (fun j => hA t j)
        have h1 := hg c
        omega
      · simp [hi]
  · intro hW hinv
    have hA := hW.1
    have hC := hW.2.2.1
    have hg := hW.2.2.2.1
    have hgc : (CXGate.apply t c (CXGate.apply t c st)).g c =
        (st.g c + 2) % 4 := by
      unfold CXGate.apply CXGate.leftMultiplyC
      simp [htc, hct]
      rw [show (fun j => st.A t j) = st.A t from rfl]
      have hd : dotRow (fun j => st.C c j ^^^ st.C t j) (st.A t) % 2 =
          (dotRow (st.C c) (st.A t) + dotRow (st.C t) (st.A t)) % 2 :=
        dot_xor_mod_two _ _ _ (fun j => hC c j) (fun j => hC t j)
          (fun j => hA t j)
      have h1 := hg c
      omega
    refine ⟨hgc, fun heq => ?_⟩
    have h2 : (CXGate.apply t c (CXGate.apply t c st)).g c = st.g c :=
      congrArg (fun x => x.g c) heq
    have h1 := hg c
    omega

theorem cx_cz_self_inverse_witness :
    ((0 : Fin 2) ≠ 1) ∧
    CZGate.apply 0 1 (CZGate.apply 0 1 exStI2) = exStI2 ∧
    (exStI2.Wf ∧ exStI2.g 0 % 2 = dotRow (exStI2.C 0) (exStI2.A 0) % 2 ∧
      CXGate.apply 0 1 (CXGate.apply 0 1 exStI2) = exStI2) ∧
    (exStId2.Wf ∧ exStId2.g 0 % 2 ≠ dotRow (exStId2.C 0) (exStId2.A 0) % 2 ∧
      (CXGate.apply 0 1 (CXGate.apply 0 1 exStId2)).g 1 =
        (exStId2.g 1 + 2) % 4) :=
  ⟨by decide,
    (cx_cz_self_inverse exStI2 0 1 (by decide)).1,
    ⟨by decide, by decide,
      (cx_cz_self_inverse exStI2 0 1 (by decide)).2.1 (by decide) (by decide)⟩,
    ⟨by decide, by decide,
      ((cx_cz_self_inverse exStId2 0 1 (by decide)).2.2 (by decide)
        (by decide)).1⟩⟩

/-- C6: applying `S` to the same target four times returns the state to
exactly its original value in every field: the four `+3`s on `g[target]`
wrap mod 4 to zero and the four XORs of `B[target]` into `C[target]`
cancel. -/
theorem s_four_identity {n : ℕ} (st : StabState n) (t : Fin n)
    (hg4 : st.g t < 4) :
    SGate.apply t (SGate.apply t (SGate.apply t (SGate.apply t st))) = st := by
  unfold SGate.apply SGate.leftMultiplyC
  refine StabState.ext rfl rfl ?_ ?_ rfl rfl rfl
  · funext i j
    by_cases hi : i = t <;>
      simp [hi, Nat.xor_assoc, Nat.xor_self, Nat.xor_zero,
        Nat.xor_cancel_left, Nat.xor_cancel_right]
  · funext i
    by_cases hi : i = t
    · simp [hi]
      omega
    · simp [hi]

theorem s_four_identity_witness :
    exStI2.g 0 < 4 ∧
    SGate.apply 0 (SGate.apply 0 (SGate.apply 0 (SGate.apply 0 exStI2))) =
      exStI2 :=
  ⟨by decide, s_four_identity exStI2 0 (by decide)⟩

/-- C9: `CX(q,q).leftMultiplyC` — target equal to control, which nothing
guards against — zeroes rows `q` of `B`, `A` and `C` (each row is XORed
with itself), sets `g[q]` to `(2·g[q] + 2·⟨C[q],A[q]⟩) mod 4` from the
prior values, and leaves `B` with a zero row, hence with determinant 0
over GF(2): the §3 invertibility invariant is destroyed. -/
theorem cx_aliased_breaks_invariant {n : ℕ} (st : StabState n) (q : Fin n) :
    (∀ j, (CXGate.leftMultiplyC q q st).B q j = 0) ∧
    (∀ j, (CXGate.leftMultiplyC q q st).A q j = 0) ∧
    (∀ j, (CXGate.leftMultiplyC q q st).C q j = 0) ∧
    (CXGate.leftMultiplyC q q st).g q =
      (2 * st.g q + 2 * dotRow (st.C q) (st.A q)) % 4 ∧
    Matrix.det
      (Matrix.of fun i j =>
        (((CXGate.leftMultiplyC q q st).B i j : ℕ) : ZMod 2)) = 0 := by
  refine ⟨fun j => by simp [CXGate.leftMultiplyC],
    fun j => by simp [CXGate.leftMultiplyC],
    fun j => by simp [CXGate.leftMultiplyC], ?_, ?_⟩
  · simp [CXGate.leftMultiplyC]
    omega
  · exact Matrix.det_eq_zero_of_row_eq_zero q fun j => by
      simp [CXGate.leftMultiplyC]

/-- numpy's basic integer indexing on an axis of length `n`, which is what
every `state.X[self.target]` in `cliffords.py` performs: `0 ≤ i < n` hits
row `i`, `−n ≤ i < 0` silently aliases to row `n + i`, anything else
raises `IndexError` (modelled as `none`).  In every gate the first failing
read happens before any write, so a raise never leaves a partial
mutation. -/
def npIdx (n : ℕ) (i : ℤ) : Option (Fin n) :=
  if h : 0 ≤ i ∧ i < n then some ⟨i.toNat, by omega⟩
  else if h2 : -(n : ℤ) ≤ i ∧ i < 0 then some ⟨(i + n).toNat, by omega⟩
  else none

/-- Source `SGate(target).apply` with a raw Python integer index. -/
def SGate.applyZ {n : ℕ} (t : ℤ) (st : StabState n) : Option (StabState n) :=
  (npIdx n t).map fun ft => SGate.apply ft st

/-- Source `HGate(target).apply` with a raw Python integer index. -/
def HGate.applyZ {n : ℕ} (desup : Desup n) (t : ℤ) (st : StabState n) :
    Option (StabState n) :=
  (npIdx n t).map fun ft => HGate.apply desup ft st

/-- Source `CXGate(target, control).apply` with raw Python integer indices. -/
def CXGate.applyZ {n : ℕ} (t c : ℤ) (st : StabState n) :
    Option (StabState n) :=
  match npIdx n t, npIdx n c with
  | some ft, some fc => some (CXGate.apply ft fc st)
  | _, _ => none

/-- Source `CZGate(target, control).apply` with raw Python integer indices. -/
def CZGate.applyZ {n : ℕ} (t c : ℤ) (st : StabState n) :
    Option (StabState n) :=
  match npIdx n t, npIdx n c with
  | some ft, some fc => some (CZGate.apply ft fc st)
  | _, _ => none

/-- C7 counterexample: the out-of-range index `−1` does not fail — numpy
aliases it to the last qubit and the gate silently mutates the state
(`S(-1)` on a 2-qubit state acts as `S(1)`, changing `g[1]`). -/
theorem negative_index_silently_applies :
    (SGate.applyZ (-1) exStI2 : Option (StabState 2)) =
      some (SGate.apply 1 exStI2) ∧
    (SGate.applyZ (-1) exStI2 : Option (StabState 2)) ≠ none ∧
    SGate.apply 1 exStI2 ≠ exStI2 :=
  ⟨rfl, by simp [SGate.applyZ, npIdx], fun h =>
    absurd (congrArg (fun x => x.g 1) h) (by decide)⟩

/-- C7 amended: indices `≥ n` or `< −n` make every gate fail fast with no
mutation (numpy raises on the first read, before any write); in-range
indices `0 ≤ i < n` always succeed, deterministically, with no failure
path; but out-of-range *negative* indices `−n ≤ i < 0` do not fail — they
silently alias to qubit `n + i` and the gate applies there. -/
theorem gate_index_contract {n : ℕ} (desup : Desup n) (st : StabState n)
    (i j : ℤ) :
    (i < -(n : ℤ) ∨ (n : ℤ) ≤ i →
      SGate.applyZ i st = none ∧ HGate.applyZ desup i st = none ∧
      CXGate.applyZ i j st = none ∧ CXGate.applyZ j i st = none ∧
      CZGate.applyZ i j st = none ∧ CZGate.applyZ j i st = none) ∧
    ((h0 : 0 ≤ i) → (hn : i < (n : ℤ)) →
      SGate.applyZ i st = some (SGate.apply ⟨i.toNat, by omega⟩ st) ∧
      HGate.applyZ desup i st =
        some (HGate.apply desup ⟨i.toNat, by omega⟩ st)) ∧
    ((hi0 : 0 ≤ i) → (hin : i < (n : ℤ)) → (hj0 : 0 ≤ j) →
      (hjn : j < (n : ℤ)) →
      CXGate.applyZ i j st =
        some (CXGate.apply ⟨i.toNat, by omega⟩ ⟨j.toNat, by omega⟩ st) ∧
      CZGate.applyZ i j st =
        some (CZGate.apply ⟨i.toNat, by omega⟩ ⟨j.toNat, by omega⟩ st)) ∧
    ((hlo : -(n : ℤ) ≤ i) → (hhi : i < 0) →
      SGate.applyZ i st = some (SGate.apply ⟨(i + n).toNat, by omega⟩ st) ∧
      HGate.applyZ desup i st =
        some (HGate.apply desup ⟨(i + n).toNat, by omega⟩ st) ∧
      ((hjlo : -(n : ℤ) ≤ j) → (hjhi : j < 0) →
        CXGate.applyZ i j st =
          some (CXGate.apply ⟨(i + n).toNat, by omega⟩
            ⟨(j + n).toNat, by omega⟩ st) ∧
        CZGate.applyZ i j st =
          some (CZGate.apply ⟨(i + n).toNat, by omega⟩
            ⟨(j + n).toNat, by omega⟩ st))) := by
  refine ⟨?_, ?_, ?_, ?_⟩
  · intro hout
    have h1 : ¬(0 ≤ i ∧ i < (n : ℤ)) := by omega
    have h2 : ¬(-(n : ℤ) ≤ i ∧ i < 0) := by omega
    have hn : npIdx n i = none := by
      unfold npIdx
      rw [dif_neg h1, dif_neg h2]
    refine ⟨by simp [SGate.applyZ, hn], by simp [HGate.applyZ, hn],
      by simp [CXGate.applyZ, hn], ?_, by simp [CZGate.applyZ, hn], ?_⟩
    · cases hj : npIdx n j <;> simp [CXGate.applyZ, hn, hj]
    · cases hj : npIdx n j <;> simp [CZGate.applyZ, hn, hj]
  · intro h0 hn
    have hi : npIdx n i = some ⟨i.toNat, by omega⟩ := by
      unfold npIdx
      rw [dif_pos ⟨h0, hn⟩]
    exact ⟨by simp [SGate.applyZ, hi], by simp [HGate.applyZ, hi]⟩
  · intro hi0 hin hj0 hjn
    have hi : npIdx n i = some ⟨i.toNat, by omega⟩ := by
      unfold npIdx
      rw [dif_pos ⟨hi0, hin⟩]
    have hj : npIdx n j = some ⟨j.toNat, by omega⟩ := by
      unfold npIdx
      rw [dif_pos ⟨hj0, hjn⟩]
    exact ⟨by simp [CXGate.applyZ, hi, hj], by simp [CZGate.applyZ, hi, hj]⟩
  · intro hlo hhi
    have h1 : ¬(0 ≤ i ∧ i < (n : ℤ)) := by omega
    have hi : npIdx n i = some ⟨(i + n).toNat, by omega⟩ := by
      unfold npIdx
      rw [dif_neg h1, dif_pos ⟨hlo, hhi⟩]
    refine ⟨by simp [SGate.applyZ, hi], by simp [HGate.applyZ, hi], ?_⟩
    intro hjlo hjhi
    have h2 : ¬(0 ≤ j ∧ j < (n : ℤ)) := by omega
    have hj : npIdx n j = some ⟨(j + n).toNat, by omega⟩ := by
      unfold npIdx
      rw [dif_neg h2, dif_pos ⟨hjlo, hjhi⟩]
    exact ⟨by simp [CXGate.applyZ, hi, hj], by simp [CZGate.applyZ, hi, hj]⟩

/-- A desuperpositionise stub on two qubits for instantiating theorems. -/
def exDesup2 : Desup 2 := fun _ _ _ _ => ⟨⟨1, 0⟩, [], fun _ => 0, fun _ => 0⟩

theorem gate_index_contract_witness :
    (SGate.applyZ 5 exStI2 : Option (StabState 2)) = none ∧
    (SGate.applyZ 1 exStI2 : Option (StabState 2)) =
      some (SGate.apply 1 exStI2) ∧
    (CXGate.applyZ 0 1 exStI2 : Option (StabState 2)) =
      some (CXGate.apply 0 1 exStI2) ∧
    (SGate.applyZ (-2) exStI2 : Option (StabState 2)) =
      some (SGate.apply 0 exStI2) ∧
    HGate.applyZ exDesup2 (-2) exStI2 =
      some (HGate.apply exDesup2 0 exStI2) ∧
    (CXGate.applyZ (-2) (-1) exStI2 : Option (StabState 2)) =
      some (CXGate.apply 0 1 exStI2) ∧
    (CZGate.applyZ (-2) (-1) exStI2 : Option (StabState 2)) =
      some (CZGate.apply 0 1 exStI2) :=
  ⟨((gate_index_contract exDesup2 exStI2 5 0).1 (by omega)).1,
    ((gate_index_contract exDesup2 exStI2 1 0).2.1 (by omega) (by omega)).1,
    ((gate_index_contract exDesup2 exStI2 0 1).2.2.1 (by omega) (by omega)
      (by omega) (by omega)).1,
    ((gate_index_contract exDesup2 exStI2 (-2) 0).2.2.2 (by omega)
      (by omega)).1,
    ((gate_index_contract exDesup2 exStI2 (-2) 0).2.2.2 (by omega)
      (by omega)).2.1,
    (((gate_index_contract exDesup2 exStI2 (-2) (-1)).2.2.2 (by omega)
      (by omega)).2.2 (by omega) (by omega)).1,
    (((gate_index_contract exDesup2 exStI2 (-2) (-1)).2.2.2 (by omega)
      (by omega)).2.2 (by omega) (by omega)).2⟩

/-- The closed set of gates of `cliffords.py` as a value tree:
`S`, `CX`, `CZ`, `H` and `CompositeGate` (a list of gates). -/
inductive Gate (n : ℕ) where
  | S (target : Fin n)
  | CX (target control : Fin n)
  | CZ (target control : Fin n)
  | H (target : Fin n)
  | Composite (gates : List (Gate n))

mutual

/-- Gate application: the C-type gates left-multiply onto `U_C`, `H` runs
the two-branch Hadamard procedure, and `CompositeGate.apply` runs its
gates one by one, left to right. -/
def Gate.apply {n : ℕ} (desup : Desup n) : Gate n → StabState n → StabState n
  | .S t, st => SGate.apply t st
  | .CX t c, st => CXGate.apply t c st
  | .CZ t c, st => CZGate.apply t c st
  | .H t, st => HGate.apply desup t st
  | .Composite gs, st => Gate.applyList desup gs st

/-- The `for gate in self.gates: gate.apply(state)` loop of
`CompositeGate.apply`. -/
def Gate.applyList {n : ℕ} (desup : Desup n) :
    List (Gate n) → StabState n → StabState n
  | [], st => st
  | g :: gs, st => Gate.applyList desup gs (Gate.apply desup g st)

end

/-- The `|` combinator, dispatching as the two `__or__` overloads do on
whether each operand is a `CompositeGate` (`MeasurementOutcome` operands
live in `measurement.py`, outside this core): composite|composite extends
the left list, composite|gate appends, gate|composite inserts at index 0,
gate|gate builds a fresh two-element composite. -/
def Gate.orOp {n : ℕ} : Gate n → Gate n → Gate n
  | .Composite gs, .Composite hs => .Composite (gs ++ hs)
  | .Composite gs, h => .Composite (gs ++ [h])
  | g, .Composite hs => .Composite (g :: hs)
  | g, h => .Composite [g, h]

/-- Is this gate a `CompositeGate`? -/
def Gate.isComposite {n : ℕ} : Gate n → Bool
  | .Composite _ => true
  | _ => false

/-- The gate sequence an operand contributes: a composite contributes its
gate list, a single gate contributes itself. -/
def Gate.seq {n : ℕ} : Gate n → List (Gate n)
  | .Composite gs => gs
  | g => [g]

/-- C8: combining two gates (or flat composites) with `|` yields a flat
composite whose elements are the left operand's gates followed by the
right operand's, and applying it applies exactly those gates to the state
in that left-to-right order. -/
theorem or_flattens_and_applies {n : ℕ} (desup : Desup n) (a b : Gate n)
    (st : StabState n) (ha : ∀ x ∈ a.seq, x.isComposite = false)
    (hb : ∀ x ∈ b.seq, x.isComposite = false) :
    Gate.orOp a b = Gate.Composite (a.seq ++ b.seq) ∧
    (∀ x ∈ (Gate.orOp a b).seq, x.isComposite = false) ∧
    Gate.apply desup (Gate.orOp a b) st =
      Gate.applyList desup (a.seq ++ b.seq) st := by
  have hor : Gate.orOp a b = Gate.Composite (a.seq ++ b.seq) := by
    cases a <;> cases b <;> rfl
  refine ⟨hor, ?_, ?_⟩
  · rw [hor]
    intro x hx
    rcases List.mem_append.mp hx with h | h
    · exact ha x h
    · exact hb x h
  · rw [hor]
    simp [Gate.apply]

theorem or_flattens_and_applies_witness :
    (∀ x ∈ (Gate.Composite [Gate.S (0 : Fin 1)]).seq, x.isComposite = false) ∧
    (∀ x ∈ (Gate.H (0 : Fin 1)).seq, x.isComposite = false) ∧
    (Gate.orOp (Gate.Composite [Gate.S (0 : Fin 1)]) (Gate.H 0) =
      Gate.Composite
        ((Gate.Composite [Gate.S (0 : Fin 1)]).seq ++ (Gate.H (0 : Fin 1)).seq) ∧
    (∀ x ∈ (Gate.orOp (Gate.Composite [Gate.S (0 : Fin 1)]) (Gate.H 0)).seq,
      x.isComposite = false) ∧
    Gate.apply exDesup1 (Gate.orOp (Gate.Composite [Gate.S (0 : Fin 1)])
        (Gate.H 0)) exSt1 =
      Gate.applyList exDesup1
        ((Gate.Composite [Gate.S (0 : Fin 1)]).seq ++ (Gate.H (0 : Fin 1)).seq)
        exSt1) :=
  ⟨by decide, by decide,
    or_flattens_and_applies exDesup1 (Gate.Composite [Gate.S 0]) (Gate.H 0)
      exSt1 (by decide) (by decide)⟩

/-- A single (non-composite) gate, as stored inside a composite's list. -/
inductive PlainGate (n : ℕ) where
  | S (target : Fin n)
  | CX (target control : Fin n)
  | CZ (target control : Fin n)
  | H (target : Fin n)
  deriving DecidableEq

/-- An element of a `CompositeGate.gates` list: either a plain gate or a
reference to another composite object. -/
inductive GElem (n : ℕ) where
  | plain (g : PlainGate n)
  | ref (i : ℕ)
  deriving DecidableEq

/-- The heap of live `CompositeGate` objects: index `i` holds object
`i`'s `gates` list.  This explicit store captures Python's aliasing — a
`CompositeGate` is its index, and `|` mutates the stored list. -/
abbrev CompositeStore (n : ℕ) := List (List (GElem n))

/-- An operand of `|`: a plain unitary gate or a composite object. -/
inductive GOperand (n : ℕ) where
  | plain (g : PlainGate n)
  | comp (i : ℕ)
  deriving DecidableEq

/-- The `|` operator with Python object semantics, returning the updated
store and the returned object.  `plain | comp j` runs
`other.gates.insert(0, self); return other` (mutating object `j` and
returning it); `plain | plain` allocates `CompositeGate([self, other])`;
`comp | comp` runs `self.gates.extend(other.gates); return self`; and
`comp | plain` runs `self.gates.append(other); return self`. -/
def orS {n : ℕ} (sto : CompositeStore n) :
    GOperand n → GOperand n → CompositeStore n × GOperand n
  | .plain g, .comp j => (sto.set j (.plain g :: sto.getD j []), .comp j)
  | .plain g, .plain h => (sto ++ [[.plain g, .plain h]], .comp sto.length)
  | .comp i2, .comp j => (sto.set i2 (sto.getD i2 [] ++ sto.getD j []), .comp i2)
  | .comp i2, .plain h => (sto.set i2 (sto.getD i2 [] ++ [.plain h]), .comp i2)

/-- Reading back the slot just written. -/
lemma getD_set_self {α : Type} (l : List α) (i : ℕ) (a : α) (d : α)
    (h : i < l.length) : (l.set i a).getD i d = a := by
  rw [List.getD_eq_getElem?_getD, List.getElem?_set_self, Option.getD_some]
  omega

/-- C10: `|` mutates its operands instead of building a fresh sequence:
`g | c` returns the very object `c` with `g` pushed onto the front of its
gate list, `c | g` returns `c` with `g` appended, `c | c2` returns `c`
with `c2`'s gates appended (no new object is allocated in these cases),
and a composite reused as an operand accumulates the gates of every
composition it takes part in. -/
theorem or_mutates_operands {n : ℕ} (sto : CompositeStore n)
    (g1 g2 : PlainGate n) (c c2 : ℕ) (hc : c < sto.length)
    (_hc2 : c2 < sto.length) :
    orS sto (.plain g1) (.comp c) =
      (sto.set c (.plain g1 :: sto.getD c []), .comp c) ∧
    orS sto (.comp c) (.plain g1) =
      (sto.set c (sto.getD c [] ++ [.plain g1]), .comp c) ∧
    orS sto (.comp c) (.comp c2) =
      (sto.set c (sto.getD c [] ++ sto.getD c2 []), .comp c) ∧
    (orS sto (.plain g1) (.comp c)).1.length = sto.length ∧
    ((orS ((orS sto (.plain g1) (.comp c)).1) (.plain g2) (.comp c)).1).getD
        c [] = .plain g2 :: .plain g1 :: sto.getD c [] := by
  refine ⟨rfl, rfl, rfl, by simp [orS], ?_⟩
  have h1 : (sto.set c (GElem.plain g1 :: sto.getD c [])).getD c [] =
      GElem.plain g1 :: sto.getD c [] := getD_set_self _ _ _ _ hc
  show ((sto.set c (GElem.plain g1 :: sto.getD c [])).set c
      (GElem.plain g2 ::
        (sto.set c (GElem.plain g1 :: sto.getD c [])).getD c [])).getD c [] = _
  rw [getD_set_self _ _ _ _ (by simpa using hc), h1]

theorem or_mutates_operands_witness :
    (0 < ([[GElem.plain (PlainGate.S (0 : Fin 1))]] : CompositeStore 1).length) ∧
    (0 < ([[GElem.plain (PlainGate.S (0 : Fin 1))]] : CompositeStore 1).length) ∧
    ((orS ((orS [[GElem.plain (PlainGate.S (0 : Fin 1))]]
        (.plain (.CX 0 0)) (.comp 0)).1) (.plain (.H 0)) (.comp 0)).1).getD
        0 [] =
      .plain (.H 0) :: .plain (.CX 0 0) ::
        ([[GElem.plain (PlainGate.S (0 : Fin 1))]] : CompositeStore 1).getD 0 [] :=
  ⟨by decide, by decide,
    (or_mutates_operands [[GElem.plain (PlainGate.S 0)]] (.CX 0 0) (.H 0) 0 0
      (by decide) (by decide)).2.2.2.2⟩
